import Mathlib

/-!
# Verification of the tourist-tour backend aggregation core

Shallow embedding of the TypeScript services of the repository
(`search.service.ts`, `offer.service.ts`/`offer.controller.ts`,
`oauth.service.ts`, `image-proxy.service.ts`, `shared/types.ts`) and proofs
about them.

Modelling conventions:
* JS numbers that hold prices are modelled as `ℚ`; counters and ids as `ℤ`,
  `ℕ` or `String`.  `Number.POSITIVE_INFINITY` in a price position is the
  `⊤` of `WithTop ℚ`.
* `x ?? y` (nullish coalescing) on an optional value is `Option.or`;
  `x || y` (truthiness) on strings additionally treats `""` as absent.
* Upstream HTTP calls are oracles: functions from the request data to
  `Except UpstreamErr` or `Option` results, passed in as parameters.
* A calendar date `"YYYY-MM-DD"` is represented by its day number (an `ℤ`);
  `new Date(s + 'T00:00:00')` then denotes `day * 86400000` milliseconds
  (both dates of one request are parsed with the same constant UTC offset,
  which cancels in differences).
-/

namespace TouristTour

/-- Decidable equality for `Except` results. -/
instance {ε α : Type _} [DecidableEq ε] [DecidableEq α] : DecidableEq (Except ε α) :=
  fun a b =>
    match a, b with
    | .ok x, .ok y => decidable_of_iff (x = y) (by simp)
    | .error x, .error y => decidable_of_iff (x = y) (by simp)
    | .ok _, .error _ => isFalse (by simp)
    | .error _, .ok _ => isFalse (by simp)

/-- JS truthiness of a nullable string: `null`/`undefined` and `""` are falsy. -/
def truthyStr : Option String → Bool
  | none => false
  | some s => s ≠ ""

/-- JS `a || b` on nullable strings: keep `a` when it is truthy. -/
def jsOrStr (a b : Option String) : Option String :=
  if truthyStr a then a else b

/-- JS `a || d` where `d` is a string literal default. -/
def strOr (a : Option String) (d : String) : String :=
  match a with
  | some s => if s = "" then d else s
  | none => d

/-- `[ ... ].filter(Boolean).join(', ')` on nullable strings. -/
def joinTruthy (parts : List (Option String)) : String :=
  String.intercalate ", " ((parts.filterMap id).filter (fun s => s ≠ ""))

/-- `[...new Set(l)]`: deduplication keeping the first occurrence of each
element, in insertion order. -/
def dedupFirst (l : List String) : List String :=
  l.foldl (fun acc x => if x ∈ acc then acc else acc ++ [x]) []

/-! ## Data model (`shared/types.ts`) -/

/-- `GuestCount` of `shared/types.ts`. -/
structure GuestCount where
  adultCount : ℤ
  childAges : Option (List ℤ)
deriving DecidableEq, Repr

/-- An `{ url: string }` image entry. -/
structure TLImage where
  url : String
deriving DecidableEq, Repr

/-- An amenity entry `{ code, displayName? }`. -/
structure TLAmenity where
  code : String
  displayName : Option String
deriving DecidableEq, Repr

/-- A room-type / multi-location address `{ addressLine?, cityName? }`. -/
structure TLAddress where
  addressLine : Option String
  cityName : Option String
deriving DecidableEq, Repr

/-- `contactInfo.address` of `TLPropertyContent`. -/
structure TLContactAddress where
  addressLine : Option String
  cityName : Option String
  latitude : Option ℚ
  longitude : Option ℚ
deriving DecidableEq, Repr

/-- `contactInfo` of `TLPropertyContent`. -/
structure TLContactInfo where
  address : Option TLContactAddress
deriving DecidableEq, Repr

/-- An element of `TLPropertyContent.roomTypes`. -/
structure TLContentRoomType where
  id : String
  name : Option String
  images : Option (List TLImage)
  address : Option TLAddress
  amenities : Option (List TLAmenity)
deriving DecidableEq, Repr

/-- `TLPropertyContent` of `shared/types.ts`. -/
structure TLPropertyContent where
  id : String
  name : String
  images : Option (List TLImage)
  stars : Option ℚ
  currency : Option String
  multiLocationProperty : Option Bool
  contactInfo : Option TLContactInfo
  amenities : Option (List TLAmenity)
  roomTypes : Option (List TLContentRoomType)
deriving DecidableEq, Repr

/-- `total` of `TLRoomStay`: `{ priceBeforeTax?, priceAfterTax? }`. -/
structure TLTotal where
  priceBeforeTax : Option ℚ
  priceAfterTax : Option ℚ
deriving DecidableEq, Repr

/-- `cancellationPolicy` of `TLRoomStay`. -/
structure TLCancellationPolicy where
  freeCancellationPossible : Option Bool
  freeCancellationDeadlineLocal : Option String
  freeCancellationDeadlineUtc : Option String
  penaltyAmount : Option ℚ
deriving DecidableEq, Repr

/-- The payment type literals `'OnSite' | 'Prepay' | 'Guarantee'`. -/
inductive TLPaymentType where
  | onSite
  | prepay
  | guarantee
deriving DecidableEq, Repr

/-- `paymentPolicy` of `TLRoomStay`. -/
structure TLPaymentPolicy where
  type : Option TLPaymentType
deriving DecidableEq, Repr

/-- An element of `TLRoomStay.includedServices`. -/
structure TLIncludedService where
  id : Option ℤ
  mealPlanCode : Option String
deriving DecidableEq, Repr

/-- An element of `TLRoomStay.roomType.placements`. -/
structure TLPlacement where
  kind : Option String
  code : Option String
  count : ℤ
deriving DecidableEq, Repr

/-- `ratePlan` of `TLRoomStay`. -/
structure TLRatePlan where
  id : String
deriving DecidableEq, Repr

/-- `roomType` of `TLRoomStay`. -/
structure TLRSRoomType where
  id : String
  name : Option String
  images : Option (List TLImage)
  address : Option TLAddress
  placements : Option (List TLPlacement)
deriving DecidableEq, Repr

/-- `TLRoomStay` of `shared/types.ts`. -/
structure TLRoomStay where
  propertyId : String
  availability : Option ℤ
  currencyCode : Option String
  checksum : Option String
  total : TLTotal
  cancellationPolicy : Option TLCancellationPolicy
  paymentPolicy : Option TLPaymentPolicy
  paymentType : Option TLPaymentType
  mealPlanCode : Option String
  includedServices : Option (List TLIncludedService)
  ratePlan : Option TLRatePlan
  roomType : Option TLRSRoomType
deriving DecidableEq, Repr

/-- An upstream HTTP failure (a thrown axios error). -/
inductive UpstreamErr where
  | err (msg : String)
deriving DecidableEq, Repr

namespace SearchService

/-- `SearchService.rsTotal`:
`rs.total?.priceBeforeTax ?? rs.total?.priceAfterTax ?? Number.POSITIVE_INFINITY`. -/
def rsTotal (rs : TLRoomStay) : WithTop ℚ :=
  match rs.total.priceBeforeTax with
  | some p => (p : WithTop ℚ)
  | none =>
    match rs.total.priceAfterTax with
    | some p => (p : WithTop ℚ)
    | none => ⊤

/-- The aggregator result map `Map<propertyId, TLRoomStay>`, modelled by its
`get` function. -/
def PropMap : Type := String → Option TLRoomStay

/-- `out.set(k, v)` observed through `get`. -/
def mapSet (m : PropMap) (k : String) (v : TLRoomStay) : PropMap :=
  fun k' => if k' = k then some v else m k'

/-- The empty `Map`. -/
def mapEmpty : PropMap := fun _ => none

/-- The body of the loop of `getCheapestByPropertyIds` over one returned
room stay:
```
const total = this.rsTotal(rs)
const cur = out.get(rs.propertyId)
const curTotal = cur ? this.rsTotal(cur) : Number.POSITIVE_INFINITY
if (!cur || total < curTotal) out.set(rs.propertyId, rs)
``` -/
def cheapestStep (out : PropMap) (rs : TLRoomStay) : PropMap :=
  match out rs.propertyId with
  | none => mapSet out rs.propertyId rs
  | some cur => if rsTotal rs < rsTotal cur then mapSet out rs.propertyId rs else out

/-- The `for (const rs of list)` loop of `getCheapestByPropertyIds` over the
room stays of one chunk response. -/
def processRoomStays (out : PropMap) (l : List TLRoomStay) : PropMap :=
  l.foldl cheapestStep out

/-- `pricePreference` of the aggregator request body. -/
structure PricePreference where
  currencyCode : String
  minPrice : ℚ
  maxPrice : ℚ
deriving DecidableEq, Repr

/-- The POST body built by `getCheapestByPropertyIds` for one chunk. -/
structure SearchAggBody where
  propertyIds : List String
  adults : ℤ
  arrivalDate : String
  departureDate : String
  pricePreference : PricePreference
deriving DecidableEq, Repr

/-- The chunking of the `for (let i = 0; i < ids.length; i += CHUNK)` loop:
the loop runs for `i = 0, n, 2n, …` while `i < ids.length` (that is,
`⌈ids.length / n⌉` iterations) and takes `ids.slice(i, i + n)` each time. -/
def chunksOf (n : ℕ) (l : List α) : List (List α) :=
  (List.range ((l.length + n - 1) / n)).map (fun i => (l.drop (i * n)).take n)

/-- The request body for one chunk of ids. -/
def mkAggBody (arrival departure : String) (guests : GuestCount) (currency : String)
    (batch : List String) : SearchAggBody :=
  { propertyIds := batch
    adults := guests.adultCount
    arrivalDate := arrival
    departureDate := departure
    pricePreference := { currencyCode := currency, minPrice := 0, maxPrice := 100000 } }

/-- The chunk loop of `getCheapestByPropertyIds`.  Each iteration awaits the
aggregator POST; there is no `try`/`catch`, so a rejected chunk call aborts
the whole method (modelled by propagating `Except.error`). -/
def cheapestGo (post : SearchAggBody → Except UpstreamErr (List TLRoomStay))
    (arrival departure : String) (guests : GuestCount) (currency : String) :
    List (List String) → PropMap → Except UpstreamErr PropMap
  | [], out => .ok out
  | batch :: rest, out =>
    match post (mkAggBody arrival departure guests currency batch) with
    | .error e => .error e
    | .ok list => cheapestGo post arrival departure guests currency rest (processRoomStays out list)

/-- `SearchService.getCheapestByPropertyIds` (chunk size `CHUNK = 200`),
parameterised by the aggregator call `post`.  A `.ok` response with a missing
`roomStays` field is read as `[]` by the source (`resp?.roomStays ?? []`),
so the oracle returns the room-stay list directly. -/
def getCheapestByPropertyIds (post : SearchAggBody → Except UpstreamErr (List TLRoomStay))
    (ids : List String) (arrival departure : String) (guests : GuestCount)
    (currency : String) : Except UpstreamErr PropMap :=
  cheapestGo post arrival departure guests currency (chunksOf 200 ids) mapEmpty

/-- Specification predicate, from the claim's words: `r` is the first offer of
`l` attaining the minimal total price (`none` exactly when `l` is empty). -/
def IsFirstMin (l : List TLRoomStay) : Option TLRoomStay → Prop
  | none => l = []
  | some rs => ∃ i : ℕ, l[i]? = some rs ∧
      (∀ x ∈ l.take i, rsTotal rs < rsTotal x) ∧
      (∀ x ∈ l, rsTotal rs ≤ rsTotal x)

/-- A minimal concrete room stay (only `propertyId`, a pre-tax total and a
`checksum` tag to tell equal-priced offers apart). -/
def exampleRS (pid : String) (price : ℚ) (tag : String) : TLRoomStay :=
  { propertyId := pid
    availability := none
    currencyCode := none
    checksum := some tag
    total := { priceBeforeTax := some price, priceAfterTax := none }
    cancellationPolicy := none
    paymentPolicy := none
    paymentType := none
    mealPlanCode := none
    includedServices := none
    ratePlan := none
    roomType := none }

/-- The offer list of the spec's determinism example:
`[{property:A, total:100}, {property:A, total:90}, {property:A, total:90}]`. -/
def c1offers : List TLRoomStay :=
  [exampleRS "A" 100 "first", exampleRS "A" 90 "second", exampleRS "A" 90 "third"]

/-- Aggregator oracle answering every chunk with `c1offers`. -/
def c1post : SearchAggBody → Except UpstreamErr (List TLRoomStay) :=
  fun _ => .ok c1offers

/-- The map produced for the C1 example. -/
def c1map : PropMap := processRoomStays mapEmpty c1offers

/-- 201 requested ids: the first chunk holds 200 copies of `"a"`, the second
chunk holds `"b"`. -/
def c3ids : List String := List.replicate 200 "a" ++ ["b"]

/-- Aggregator oracle that fails exactly on the chunk containing `"b"` and
returns a cheap offer for `"a"` otherwise. -/
def c3post : SearchAggBody → Except UpstreamErr (List TLRoomStay) :=
  fun body =>
    if "b" ∈ body.propertyIds then .error (.err "chunk failed")
    else .ok [exampleRS "a" 50 "cheap"]

/-- The value returned by `getPropertyContent`
(`{ cached: boolean; data; stale?: boolean }`; an absent `stale` field is
modelled as `false`). -/
structure ContentResult where
  cached : Bool
  data : TLPropertyContent
  stale : Bool
deriving DecidableEq, Repr

/-- `NotFoundException('Property ${id} content not available')`. -/
inductive ContentErr where
  | contentUnavailable (id : String)
deriving DecidableEq, Repr

/-- `SearchService.fetchAndCacheContent`: the upstream content GET either
yields data — which is written to the cache for 24h — or throws, in which
case the error is logged and `null` is returned, leaving the cache entry as
it was.  `fetchResult` is the oracle for the GET (`none` = the call threw).
Returns `(function result, cache entry afterwards)`. -/
def fetchAndCacheContent (cache : Option TLPropertyContent)
    (fetchResult : Option TLPropertyContent) :
    Option TLPropertyContent × Option TLPropertyContent :=
  match fetchResult with
  | some data => (some data, some data)
  | none => (none, cache)

/-- `SearchService.getPropertyContent id {refresh}`.  `cache` is the Redis
entry `hotel:${id}` read at the start; `fetchResult` the upstream GET oracle.
Returns `(result, whether a fetch was performed, cache entry afterwards)`. -/
def getPropertyContent (id : String) (cache : Option TLPropertyContent)
    (fetchResult : Option TLPropertyContent) (refresh : Bool) :
    Except ContentErr ContentResult × Bool × Option TLPropertyContent :=
  match cache with
  | some c =>
    if refresh then
      match fetchAndCacheContent (some c) fetchResult with
      | (some f, cache') => (.ok ⟨false, f, false⟩, true, cache')
      | (none, cache') => (.ok ⟨true, c, true⟩, true, cache')
    else (.ok ⟨true, c, false⟩, false, some c)
  | none =>
    match fetchAndCacheContent none fetchResult with
    | (some f, cache') => (.ok ⟨false, f, false⟩, true, cache')
    | (none, cache') => (.error (.contentUnavailable id), true, cache')

/-- A minimal concrete property content value. -/
def exampleContent (i : String) : TLPropertyContent :=
  { id := i
    name := "Hotel " ++ i
    images := none
    stars := some 4
    currency := some "RUB"
    multiLocationProperty := none
    contactInfo := none
    amenities := none
    roomTypes := none }

end SearchService

/-! ## Card / offer views (`shared/types.ts` DTOs and the mapping code) -/

/-- JS truthiness of `o?.length` for a nullable array. -/
def optListNonempty (o : Option (List α)) : Bool :=
  match o with
  | some l => !l.isEmpty
  | none => false

/-- The meal-code expression shared verbatim by `buildCard` and
`mapRoomStayToOffer`:
`rs.mealPlanCode || rs.includedServices?.find((s) => s.mealPlanCode)?.mealPlanCode || undefined`,
with the result normalised through JS truthiness (so `""` becomes absent). -/
def mealCodeOf (rs : TLRoomStay) : Option String :=
  let fromServices :=
    ((rs.includedServices.getD []).find? (fun s => truthyStr s.mealPlanCode)).bind
      (fun s => s.mealPlanCode)
  let c := jsOrStr rs.mealPlanCode fromServices
  if truthyStr c then c else none

/-- The `per` discriminator of a card price (`'night' | 'stay'`). -/
inductive PricePer where
  | night
  | stay
deriving DecidableEq, Repr

/-- `HotelCard.price`.  The value is a `WithTop ℤ` because the JS expression
propagates `Infinity` when the room stay carries no price at all. -/
structure CardPrice where
  value : WithTop ℤ
  currency : String
  per : PricePer
deriving DecidableEq, Repr

/-- `freeCancel: boolean | string` of `HotelCard`. -/
inductive FreeCancel where
  | flag (b : Bool)
  | str (s : String)
deriving DecidableEq, Repr

/-- `HotelCard.coordinates`. -/
structure Coordinates where
  lat : Option ℚ
  lon : Option ℚ
deriving DecidableEq, Repr

/-- `HotelCard` of `shared/types.ts`. -/
structure HotelCard where
  id : String
  name : String
  address : String
  coordinates : Coordinates
  stars : Option ℚ
  thumbnail : List String
  amenities : List String
  roomName : String
  mealLabel : Option String
  freeCancel : FreeCancel
  payOnSite : Bool
  price : CardPrice
  guestsNote : String
deriving DecidableEq, Repr

/-- `RoomOffer.price`. -/
structure OfferPrice where
  total : WithTop ℚ
  perNight : WithTop ℤ
  currency : String
deriving DecidableEq, Repr

/-- The cancellation information attached to a `RoomOffer` by
`mapRoomStayToOffer`. -/
structure OfferCancellation where
  freeCancellationPossible : Bool
  freeCancellationDeadlineLocal : Option String
  freeCancellationDeadlineUtc : Option String
  penaltyAmount : Option ℚ
  penaltyCurrency : String
deriving DecidableEq, Repr

/-- `RoomOffer` of `shared/types.ts` (as populated by `mapRoomStayToOffer`). -/
structure RoomOffer where
  roomTypeId : String
  roomTypeName : String
  mealLabel : Option String
  paymentType : Option TLPaymentType
  price : OfferPrice
  images : List String
  addressLine : Option String
  ratePlanId : Option String
  amenities : List TLAmenity
  availability : Option ℤ
  cancellationPolicy : OfferCancellation
deriving DecidableEq, Repr

namespace SearchService

/-- `SearchService.mealLabel`: fixed code → display-label table, unknown
codes yield `''`. -/
def mealLabel (code : String) : String :=
  match code with
  | "AllInclusive" => "Всё включено"
  | "FullBoard" => "Трёхразовое питание"
  | "HalfBoard" => "Полупансион"
  | "Breakfast" => "Завтрак"
  | "BreakFast" => "Завтрак"
  | "ContinentalBreakfast" => "Континентальный завтрак"
  | "BuffetDinner" => "Ужин \x22Шведский стол\x22"
  | _ => ""

/-- `SearchService.ruPlural` (the source calls it with `f1 = 'я'`,
`f2 = 'ей'` and the default `f5 = 'ов'`). -/
def ruPlural (n : ℤ) (f1 f2 f5 : String) : String :=
  let v := n.natAbs % 100
  let v1 := v % 10
  if 10 < v ∧ v < 20 then f5
  else if 1 < v1 ∧ v1 < 5 then f2
  else if v1 = 1 then f1
  else f5

/-- `SearchService.diffNights`: millisecond difference of the two parsed
midnights, divided by `86400000`, `Math.round`ed, floored at 1.
(`Math.round x = ⌊x + 1/2⌋`, which is Mathlib's `round`.) -/
def diffNights (a b : ℤ) : ℤ :=
  max 1 (round ((((b * 86400000 : ℤ) : ℚ) - ((a * 86400000 : ℤ) : ℚ)) / 86400000))

/-- `SearchService.buildCard`.  `formatRuDate` is the date-formatting helper
of `utils/date.ts` (locale-dependent presentation, passed in abstractly). -/
def buildCard (formatRuDate : String → String) (content : TLPropertyContent)
    (rs : TLRoomStay) (nights : ℤ) (guests : GuestCount) : HotelCard :=
  let priceTotal := rsTotal rs
  let perNight : WithTop ℤ :=
    priceTotal.map (fun q => max 1 (round (q / ((max 1 nights : ℤ) : ℚ))))
  let currency := strOr rs.currencyCode (strOr content.currency "RUB")
  -- `content.roomTypes?.find((rt) => String(rt.id) === String(rs.roomType?.id))`;
  -- `String(undefined)` is the literal `"undefined"`.
  let rsRoomTypeIdStr := match rs.roomType with
    | some r => r.id
    | none => "undefined"
  let rtFromContent := (content.roomTypes.getD []).find? (fun rt => rt.id == rsRoomTypeIdStr)
  let rsAddr := rs.roomType.bind (fun r => r.address)
  let rtAddr := rtFromContent.bind (fun r => r.address)
  let addr :=
    if (content.multiLocationProperty.getD false) && (rsAddr.isSome || rtAddr.isSome) then
      joinTruthy [(rsAddr.bind (fun a => a.addressLine)).or (rtAddr.bind (fun a => a.addressLine)),
                  (rsAddr.bind (fun a => a.cityName)).or (rtAddr.bind (fun a => a.cityName))]
    else
      joinTruthy [content.contactInfo.bind (fun ci => ci.address.bind (fun a => a.addressLine)),
                  content.contactInfo.bind (fun ci => ci.address.bind (fun a => a.cityName))]
  let thumbImages :=
    if optListNonempty (rtFromContent.bind (fun r => r.images)) then
      (rtFromContent.bind (fun r => r.images)).getD []
    else if optListNonempty (rs.roomType.bind (fun r => r.images)) then
      (rs.roomType.bind (fun r => r.images)).getD []
    else content.images.getD []
  let thumbnail := thumbImages.map (fun i => i.url)
  let mealLabelV := (mealCodeOf rs).map mealLabel
  let freeCancel :=
    if (rs.cancellationPolicy.bind (fun c => c.freeCancellationPossible)).getD false then
      match rs.cancellationPolicy.bind (fun c => c.freeCancellationDeadlineLocal) with
      | some d => if d = "" then FreeCancel.flag true
                  else FreeCancel.str ("до " ++ formatRuDate d)
      | none => FreeCancel.flag true
    else FreeCancel.flag false
  let payOnSite := (rs.paymentPolicy.bind (fun p => p.type) == some TLPaymentType.onSite)
    || (rs.paymentType == some TLPaymentType.onSite)
  let guestsTotal := guests.adultCount + ((guests.childAges.getD []).length : ℤ)
  let propertyAmenityCodes := (content.amenities.getD []).map (fun a => a.code)
  let amenities := dedupFirst propertyAmenityCodes
  { id := content.id
    name := content.name
    address := addr
    coordinates :=
      { lat := content.contactInfo.bind (fun ci => ci.address.bind (fun a => a.latitude))
        lon := content.contactInfo.bind (fun ci => ci.address.bind (fun a => a.longitude)) }
    stars := content.stars
    thumbnail := thumbnail
    amenities := amenities
    roomName := ((rs.roomType.bind (fun r => r.name)).or
      (rtFromContent.bind (fun r => r.name))).getD "Номер"
    mealLabel := mealLabelV
    freeCancel := freeCancel
    payOnSite := payOnSite
    price := { value := perNight, currency := currency, per := PricePer.night }
    guestsNote := "за ночь для " ++ toString guestsTotal ++ " гост"
      ++ ruPlural guestsTotal "я" "ей" "ов" }

/-- The pagination of `getHotelsList`:
`start = offset ?? 0`, `end = limit ? start + limit : ids.length` (JS
truthiness: `limit = 0` behaves like no limit), `ids.slice(start, end)`. -/
def slicedIds (ids : List String) (offset limit : Option ℕ) : List String :=
  let start := offset.getD 0
  match limit with
  | some l => if l = 0 then ids.drop start else (ids.drop start).take l
  | none => ids.drop start

/-- The comparator of the final `cards.sort((a, b) => a.price.value - b.price.value)`. -/
def cardLe (a b : HotelCard) : Prop := a.price.value ≤ b.price.value

instance : DecidableRel cardLe :=
  fun a b => inferInstanceAs (Decidable (a.price.value ≤ b.price.value))

instance : IsTotal HotelCard cardLe := ⟨fun a b => le_total a.price.value b.price.value⟩

instance : IsTrans HotelCard cardLe := ⟨fun _ _ _ hab hbc => le_trans hab hbc⟩

/-- `SearchService.getHotelsList`.  `geoIds` is the property-id list the geo
call returned for the city, `contentById` the map produced by
`getContentForIds`, and `cheapestById` the map produced by
`getCheapestByPropertyIds` (steps 1–3 of the source).  The final sort is the
stable array sort of V8, modelled by `insertionSort`. -/
def getHotelsList (formatRuDate : String → String) (geoIds : List String)
    (contentById : String → Option TLPropertyContent) (cheapestById : PropMap)
    (arrival departure : ℤ) (guests : GuestCount)
    (offset limit : Option ℕ) : List HotelCard :=
  if geoIds.isEmpty then []
  else
    let sliced := slicedIds geoIds offset limit
    let nights := diffNights arrival departure
    let cards := sliced.filterMap (fun id =>
      match contentById id, cheapestById id with
      | some content, some offer => some (buildCard formatRuDate content offer nights guests)
      | _, _ => none)
    cards.insertionSort cardLe

end SearchService

namespace OfferService

/-- `OfferService.mapRoomStayToOffer`.  `transform` is the injected
`ImageProxyService.transformUrl`. -/
def mapRoomStayToOffer (transform : String → String) (content : TLPropertyContent)
    (rs : TLRoomStay) (nights : ℤ) : RoomOffer :=
  -- `content.roomTypes?.find((rt) => rt.id === rs.roomType?.id)`: a strict
  -- comparison with `undefined` never matches.
  let rt : Option TLContentRoomType := match rs.roomType with
    | some r => (content.roomTypes.getD []).find? (fun c => c.id == r.id)
    | none => none
  let mealLabelV := (mealCodeOf rs).map SearchService.mealLabel
  let currency := strOr rs.currencyCode (strOr content.currency "RUB")
  let cancellationPolicy : OfferCancellation :=
    { freeCancellationPossible :=
        (rs.cancellationPolicy.bind (fun c => c.freeCancellationPossible)).getD false
      freeCancellationDeadlineLocal :=
        rs.cancellationPolicy.bind (fun c => c.freeCancellationDeadlineLocal)
      freeCancellationDeadlineUtc :=
        rs.cancellationPolicy.bind (fun c => c.freeCancellationDeadlineUtc)
      penaltyAmount := rs.cancellationPolicy.bind (fun c => c.penaltyAmount)
      penaltyCurrency := currency }
  let paymentType := (rs.paymentPolicy.bind (fun p => p.type)).or rs.paymentType
  let total := SearchService.rsTotal rs
  let perNight : WithTop ℤ :=
    total.map (fun q => max 1 (round (q / ((max 1 nights : ℤ) : ℚ))))
  let images :=
    ((if optListNonempty (rt.bind (fun r => r.images)) then
        (rt.bind (fun r => r.images)).getD []
      else (rs.roomType.bind (fun r => r.images)).getD []).map (fun i => i.url)).map transform
  let roomAmenities := (rt.bind (fun r => r.amenities)).getD []
  { roomTypeId := ((rs.roomType.map (fun r => r.id)).or (rt.map (fun r => r.id))).getD ""
    roomTypeName := ((rs.roomType.bind (fun r => r.name)).or (rt.bind (fun r => r.name))).getD "Номер"
    mealLabel := mealLabelV
    paymentType := paymentType
    price := { total := total, perNight := perNight, currency := currency }
    images := images
    addressLine := (rs.roomType.bind (fun r => r.address.bind (fun a => a.addressLine))).or
      (rt.bind (fun r => r.address.bind (fun a => a.addressLine)))
    ratePlanId := rs.ratePlan.map (fun r => r.id)
    amenities := roomAmenities
    availability := rs.availability
    cancellationPolicy := cancellationPolicy }

end OfferService

/-! ## Token lifecycle (`oauth.service.ts`) -/

namespace OAuthService

/-- The mutable token-cache state of `OAuthService`: the in-process tier
(`memoryToken` / `memoryTokenExpiresAt`) and the shared Redis entry
`oauth:access_token` together with its absolute expiry instant.  All times
are in milliseconds (`Date.now()`); `redisService.set(key, tok, ttl)` at
time `t` makes the entry expire at `t + ttl·1000`. -/
structure OAuthState where
  memoryToken : Option String
  memoryTokenExpiresAt : Option ℤ
  redis : Option (String × ℤ)
deriving DecidableEq, Repr

/-- `redisService.get('oauth:access_token')` at time `now`: the stored value
while not yet expired, `null` afterwards. -/
def redisGet (s : OAuthState) (now : ℤ) : Option String :=
  match s.redis with
  | some (tok, expiry) => if now < expiry then some tok else none
  | none => none

/-- `OAuthService.getAccessToken` at time `now`.  `fresh` is the token
endpoint oracle: `some (access_token, expires_in)` on success (seconds),
`none` when the request throws.  Returns
`(result, state afterwards, whether the token endpoint was called)`.
On a Redis hit the token is adopted into memory with
`memoryTokenExpiresAt = null`; on a fetch the Redis TTL is
`max(expires_in - 120, 60)` seconds and the memory expiry is the same
instant. -/
def getAccessToken (s : OAuthState) (now : ℤ) (fresh : Option (String × ℤ)) :
    Except Unit String × OAuthState × Bool :=
  match redisGet s now with
  | some cachedToken =>
    (.ok cachedToken,
     { s with memoryToken := some cachedToken, memoryTokenExpiresAt := none },
     false)
  | none =>
    match fresh with
    | some (tok, expiresIn) =>
      let ttl := max (expiresIn - 120) 60
      (.ok tok,
       { memoryToken := some tok
         memoryTokenExpiresAt := some (now + ttl * 1000)
         redis := some (tok, now + ttl * 1000) },
       true)
    | none => (.error (), s, true)

/-- The fall-through of `getValidAccessToken` after the in-memory check:
Redis, then the token endpoint.  (The `refreshingPromise` single-flight only
matters for overlapping calls; calls are modelled sequentially here.) -/
def getValidRest (s : OAuthState) (now : ℤ) (fresh : Option (String × ℤ)) :
    Except Unit String × OAuthState × Bool :=
  match redisGet s now with
  | some cachedToken =>
    (.ok cachedToken,
     { s with memoryToken := some cachedToken, memoryTokenExpiresAt := none },
     false)
  | none => getAccessToken s now fresh

/-- `OAuthService.getValidAccessToken`: memory → Redis → token endpoint.
The memory check is
`typeof memoryToken === 'string' && memoryToken && (!memoryTokenExpiresAt || Date.now() < memoryTokenExpiresAt)`
(JS truthiness: the empty-string token and the numeric timestamp `0` are
falsy). -/
def getValidAccessToken (s : OAuthState) (now : ℤ) (fresh : Option (String × ℤ)) :
    Except Unit String × OAuthState × Bool :=
  match s.memoryToken, s.memoryTokenExpiresAt with
  | some tok, none =>
    if tok ≠ "" then (.ok tok, s, false) else getValidRest s now fresh
  | some tok, some e =>
    if tok ≠ "" ∧ (e = 0 ∨ now < e) then (.ok tok, s, false)
    else getValidRest s now fresh
  | none, _ => getValidRest s now fresh

/-- `OAuthService.refreshToken`: clear both tiers, then
`getValidAccessToken`. -/
def refreshToken (_s : OAuthState) (now : ℤ) (fresh : Option (String × ℤ)) :
    Except Unit String × OAuthState × Bool :=
  getValidAccessToken ⟨none, none, none⟩ now fresh

end OAuthService

/-! ## Image proxy (`image-proxy.service.ts`)

URLs handed to `Buffer.from(url)` are represented by their UTF-8 byte
sequences (`List ℕ`, each element `< 256`); UTF-8 encoding is injective, so
a round trip on bytes is a round trip on URL strings. -/

namespace ImageProxyService

/-- The base64url alphabet (RFC 4648 §5), as used by
`buffer.toString('base64url')`. -/
def b64Alphabet : List Char :=
  ['A', 'B', 'C', 'D', 'E', 'F', 'G', 'H', 'I', 'J', 'K', 'L', 'M',
   'N', 'O', 'P', 'Q', 'R', 'S', 'T', 'U', 'V', 'W', 'X', 'Y', 'Z',
   'a', 'b', 'c', 'd', 'e', 'f', 'g', 'h', 'i', 'j', 'k', 'l', 'm',
   'n', 'o', 'p', 'q', 'r', 's', 't', 'u', 'v', 'w', 'x', 'y', 'z',
   '0', '1', '2', '3', '4', '5', '6', '7', '8', '9', '-', '_']

/-- Digit value → base64url character. -/
def sextetToChar (s : ℕ) : Char := b64Alphabet.getD s 'A'

/-- Base64url character → digit value. -/
def charToSextet (c : Char) : ℕ := b64Alphabet.indexOf c

/-- Whether a character belongs to the base64url alphabet. -/
def isB64Char (c : Char) : Bool := c ∈ b64Alphabet

/-- Bytes → 6-bit groups, processing 3 bytes into 4 sextets; a trailing
group of 1 or 2 bytes yields 2 or 3 sextets and no `'='` padding
(`base64url`). -/
def bytesToSextets : List ℕ → List ℕ
  | [] => []
  | [a] => [a / 4, a % 4 * 16]
  | [a, b] => [a / 4, a % 4 * 16 + b / 16, b % 16 * 4]
  | a :: b :: c :: rest =>
    a / 4 :: (a % 4 * 16 + b / 16) :: (b % 16 * 4 + c / 64) :: c % 64 ::
      bytesToSextets rest

/-- 6-bit groups → bytes, processing 4 sextets into 3 bytes; a trailing
group of 2 or 3 sextets carries 1 or 2 bytes, a lone trailing sextet
carries none. -/
def sextetsToBytes : List ℕ → List ℕ
  | [] => []
  | [_] => []
  | [x, y] => [x * 4 + y / 16]
  | [x, y, z] => [x * 4 + y / 16, y % 16 * 16 + z / 4]
  | x :: y :: z :: w :: rest =>
    (x * 4 + y / 16) :: (y % 16 * 16 + z / 4) :: (z % 4 * 64 + w) ::
      sextetsToBytes rest

/-- `ImageProxyService.encodeUrl`: `Buffer.from(url).toString('base64url')`. -/
def encodeUrl (url : List ℕ) : String :=
  String.mk ((bytesToSextets url).map sextetToChar)

/-- `ImageProxyService.decodeUrl`:
`Buffer.from(encoded, 'base64url').toString('utf-8')`.  Node's base64
decoder is lenient and never throws: characters outside the alphabet are
ignored and a lone trailing sextet is dropped. -/
def decodeUrl (encoded : String) : List ℕ :=
  sextetsToBytes ((encoded.data.filter isB64Char).map charToSextet)

/-- `NotFoundException('Invalid image URL')` / `NotFoundException('Failed to fetch image')`. -/
inductive ImgErr where
  | invalidImageToken
  | imageUnavailable
deriving DecidableEq, Repr

/-- `contentTypeToExt`: `map[contentType.split(';')[0]] || 'jpg'`. -/
def contentTypeToExt (contentType : String) : String :=
  match (contentType.splitOn ";").headD "" with
  | "image/jpeg" => "jpg"
  | "image/jpg" => "jpg"
  | "image/png" => "png"
  | "image/webp" => "webp"
  | "image/gif" => "gif"
  | _ => "jpg"

/-- `extToContentType`: `map[ext] || 'image/jpeg'`. -/
def extToContentType (ext : String) : String :=
  match ext with
  | "jpg" => "image/jpeg"
  | "jpeg" => "image/jpeg"
  | "png" => "image/png"
  | "webp" => "image/webp"
  | "gif" => "image/gif"
  | _ => "image/jpeg"

/-- `findCachedFile`: probe `<hash>.<ext>` for the known extensions on the
disk cache `fs` (path → file bytes). -/
def findCachedFile (fs : String → Option (List ℕ)) (h : String) :
    Option (String × String) :=
  (["jpg", "jpeg", "png", "webp", "gif"].find?
      (fun ext => (fs (h ++ "." ++ ext)).isSome)).map
    (fun ext => (h ++ "." ++ ext, extToContentType ext))

/-- `downloadAndCache`: the download oracle yields
`(body bytes, content-type header)` or `none` when the request fails; on
success the file `<hash>.<ext>` is written.  Returns
`((buffer, contentType), file written)` or `ImageUnavailable`. -/
def downloadAndCache (download : List ℕ → Option (List ℕ × Option String))
    (h : String) (url : List ℕ) :
    Except ImgErr ((List ℕ × String) × Option (String × List ℕ)) :=
  match download url with
  | some (buffer, ctHeader) =>
    let contentType := ctHeader.getD "image/jpeg"
    let ext := contentTypeToExt contentType
    .ok ((buffer, contentType), some (h ++ "." ++ ext, buffer))
  | none => .error .imageUnavailable

/-- `getImageByEncodedUrl`.  `hash` is `urlToHash` (md5, abstract), `fs` the
on-disk cache.  Decoding is total (Node's lenient base64), so the
`catch { throw InvalidImageToken }` arm of the source around `decodeUrl` is
unreachable and does not appear as a reachable branch here. -/
def getImageByEncodedUrl (hash : List ℕ → String) (fs : String → Option (List ℕ))
    (download : List ℕ → Option (List ℕ × Option String)) (encodedUrl : String) :
    Except ImgErr ((List ℕ × String) × Option (String × List ℕ)) :=
  let originalUrl := decodeUrl encodedUrl
  let h := hash originalUrl
  match findCachedFile fs h with
  | some (path, contentType) => .ok (((fs path).getD [], contentType), none)
  | none => downloadAndCache download h originalUrl

/-- UTF-8 bytes of `"https://ex.com/im g?a=1&b=й"` (contains spaces, query
metacharacters and a non-ASCII character). -/
def c8url : List ℕ :=
  [104, 116, 116, 112, 115, 58, 47, 47, 101, 120, 46, 99, 111, 109, 47,
   105, 109, 32, 103, 63, 97, 61, 49, 38, 98, 61, 208, 185]

end ImageProxyService

/-! ## Request deduplication (`OfferService.getRoomStaysWithDedup`)

`getRoomStaysWithDedup` runs under Node's cooperative scheduler: the code
between two `await`s executes atomically.  We model one fingerprint
(`propertyId`, dates, guests, currency — the `requestKey`) with `n` callers
and an interleaving semantics.  Each caller performs one `check` step (the
resumption after the Redis cache read: cache hit → return; in-flight hit →
attach as follower; otherwise synchronously register a new in-flight fetch
before the next suspension).  A `settle` step is the settlement of an
in-flight upstream fetch together with the leader's continuation (on success
the filtered result is written to the 5-minute cache; in the `finally`, the
in-flight handle is removed — on success and failure alike).  A `wake` step
is one awaiting caller's resumption with the settled outcome; leader and
followers alike return
`(result?.roomStays ?? []).filter((rs) => rs.propertyId === propertyId)`,
or re-throw the rejection. -/

namespace OfferService

/-- The local phase of one caller of `getRoomStaysWithDedup`. -/
inductive CallerPhase where
  | ready
  | waiting (fid : ℕ)
  | done (r : Except UpstreamErr (List TLRoomStay))
deriving DecidableEq, Repr

/-- Global interleaving state for one fingerprint: the short-TTL cache
entry, the in-flight map entry, the settled fetch outcomes, the callers'
phases, and the ids of the upstream fetches started so far. -/
structure DedupState (n : ℕ) where
  cache : Option (List TLRoomStay)
  inflight : Option ℕ
  settled : ℕ → Option (Except UpstreamErr (List TLRoomStay))
  callers : Fin n → CallerPhase
  started : List ℕ
  nextId : ℕ

/-- Initial state: no fetch started, every caller about to check. -/
def initState (n : ℕ) (cache : Option (List TLRoomStay)) : DedupState n :=
  ⟨cache, none, fun _ => none, fun _ => .ready, [], 0⟩

/-- One interleaving event. -/
inductive DedupAction (n : ℕ) where
  | check (c : Fin n)
  | settle (fid : ℕ) (outcome : Except UpstreamErr (List TLRoomStay))
  | wake (c : Fin n)
deriving DecidableEq, Repr

/-- Whether an action is a `check`. -/
def isCheck : DedupAction n → Bool
  | .check _ => true
  | _ => false

/-- Whether an action is a `settle`. -/
def isSettle : DedupAction n → Bool
  | .settle _ _ => true
  | _ => false

/-- `(...).filter((rs) => rs.propertyId === propertyId)`. -/
def filterProp (p : String) (l : List TLRoomStay) : List TLRoomStay :=
  l.filter (fun rs => rs.propertyId == p)

/-- The value a caller awaiting outcome `out` returns: the filtered list on
success, the same rejection on failure. -/
def mkRes (p : String) : Except UpstreamErr (List TLRoomStay) →
    Except UpstreamErr (List TLRoomStay)
  | .ok l => .ok (filterProp p l)
  | .error e => .error e

/-- A caller's check step: cache hit → done with the cached value (returned
as stored, without re-filtering); in-flight hit → attach; otherwise register
a fresh fetch (new id, recorded in `started`) and await it. -/
def stepCheck (s : DedupState n) (c : Fin n) : DedupState n :=
  match s.callers c with
  | .ready =>
    match s.cache with
    | some cached =>
      { s with callers := Function.update s.callers c (.done (.ok cached)) }
    | none =>
      match s.inflight with
      | some fid => { s with callers := Function.update s.callers c (.waiting fid) }
      | none =>
        { s with
          inflight := some s.nextId
          callers := Function.update s.callers c (.waiting s.nextId)
          started := s.started ++ [s.nextId]
          nextId := s.nextId + 1 }
  | _ => s

/-- Settlement of fetch `fid` (only the fetch actually in flight can
settle): record the outcome; on success the leader's continuation writes the
filtered list to the cache; the `finally` removes the in-flight handle on
success and failure alike. -/
def stepSettle (p : String) (s : DedupState n) (fid : ℕ)
    (outcome : Except UpstreamErr (List TLRoomStay)) : DedupState n :=
  if s.inflight = some fid then
    match outcome with
    | .ok l =>
      { s with
        settled := Function.update s.settled fid (some (.ok l))
        cache := some (filterProp p l)
        inflight := none }
    | .error e =>
      { s with
        settled := Function.update s.settled fid (some (.error e))
        inflight := none }
  else s

/-- An awaiting caller resumes once its fetch has settled, returning the
filtered list or the error. -/
def stepWake (p : String) (s : DedupState n) (c : Fin n) : DedupState n :=
  match s.callers c with
  | .waiting fid =>
    match s.settled fid with
    | some out => { s with callers := Function.update s.callers c (.done (mkRes p out)) }
    | none => s
  | _ => s

/-- One interleaving step. -/
def dedupStep (p : String) (s : DedupState n) : DedupAction n → DedupState n
  | .check c => stepCheck s c
  | .settle fid outcome => stepSettle p s fid outcome
  | .wake c => stepWake p s c

/-- Run a trace of interleaving events. -/
def dedupRun (p : String) (s : DedupState n) (tr : List (DedupAction n)) : DedupState n :=
  tr.foldl (dedupStep p) s

/-- Invariant while no fetch has settled yet. -/
def Phase1Inv (s : DedupState n) : Prop :=
  s.cache = none ∧ (∀ f, s.settled f = none) ∧
  ((s.inflight = none ∧ s.started = [] ∧ s.nextId = 0 ∧
      ∀ c, s.callers c = .ready) ∨
   (s.inflight = some 0 ∧ s.started = [0] ∧ s.nextId = 1 ∧
      ∀ c, s.callers c = .ready ∨ s.callers c = .waiting 0))

/-- The invariant that the cache and every successfully finished caller hold
only room stays of the fingerprint's property. -/
def PropInv (p : String) (s : DedupState n) : Prop :=
  (∀ l, s.cache = some l → ∀ rs ∈ l, rs.propertyId = p) ∧
  (∀ c l, s.callers c = .done (.ok l) → ∀ rs ∈ l, rs.propertyId = p)

/-- Upstream response of the concrete dedup example: one room stay of the
requested property `"P"` and one stray room stay of another property. -/
def c7resp : List TLRoomStay :=
  [SearchService.exampleRS "P" 100 "match", SearchService.exampleRS "Q" 90 "other"]

/-- Concrete example trace, first half: both callers check before any
settlement (they are concurrent). -/
def c7t1 : List (DedupAction 2) := [.check 0, .check 1]

/-- Concrete example trace, second half: the single fetch settles
successfully and both callers resume. -/
def c7t2 : List (DedupAction 2) := [.settle 0 (.ok c7resp), .wake 0, .wake 1]

/-- Invariant once all checks are done. -/
def Phase2Inv (p : String) (s : DedupState n) : Prop :=
  (s.started = [] ∧ s.inflight = none ∧ (∀ f, s.settled f = none) ∧
     ∀ c, s.callers c = .ready) ∨
  (s.started = [0] ∧
    ((s.inflight = some 0 ∧ s.settled 0 = none ∧
       ∀ c, s.callers c = .ready ∨ s.callers c = .waiting 0) ∨
     (s.inflight = none ∧ ∃ out, s.settled 0 = some out ∧
       ∀ c, s.callers c = .ready ∨ s.callers c = .waiting 0 ∨
            s.callers c = .done (mkRes p out))))

end OfferService

namespace SearchService

/-- Unfolding `cheapestStep` when no best-so-far offer exists. -/
lemma cheapestStep_of_none {out : PropMap} {rs : TLRoomStay}
    (h : out rs.propertyId = none) :
    cheapestStep out rs = mapSet out rs.propertyId rs := by
  unfold cheapestStep; rw [h]

/-- Unfolding `cheapestStep` when a best-so-far offer exists. -/
lemma cheapestStep_of_some {out : PropMap} {rs cur : TLRoomStay}
    (h : out rs.propertyId = some cur) :
    cheapestStep out rs =
      if rsTotal rs < rsTotal cur then mapSet out rs.propertyId rs else out := by
  unfold cheapestStep; rw [h]

/-- Updating the map at the key of `rs` does not change other keys. -/
lemma cheapestStep_get_ne (out : PropMap) (rs : TLRoomStay) (p : String)
    (h : rs.propertyId ≠ p) : cheapestStep out rs p = out p := by
  have hp : p ≠ rs.propertyId := Ne.symm h
  cases hcur : out rs.propertyId with
  | none => rw [cheapestStep_of_none hcur]; simp [mapSet, hp]
  | some cur =>
    rw [cheapestStep_of_some hcur]
    by_cases hcmp : rsTotal rs < rsTotal cur
    · rw [if_pos hcmp]; simp [mapSet, hp]
    · rw [if_neg hcmp]

/-- One loop iteration preserves the first-minimum invariant: if `out p` is
the first minimum of the room stays for `p` seen so far, it still is after
processing one more room stay. -/
lemma isFirstMin_step (hist : List TLRoomStay) (out : PropMap) (rs : TLRoomStay) (p : String)
    (ih : IsFirstMin (hist.filter (fun x => x.propertyId == p)) (out p)) :
    IsFirstMin ((hist ++ [rs]).filter (fun x => x.propertyId == p))
      (cheapestStep out rs p) := by
  by_cases hp : rs.propertyId = p
  · subst hp
    have hfilter : (hist ++ [rs]).filter (fun x => x.propertyId == rs.propertyId) =
        hist.filter (fun x => x.propertyId == rs.propertyId) ++ [rs] := by
      simp [List.filter_append]
    rw [hfilter]
    set filt := hist.filter (fun x => x.propertyId == rs.propertyId) with hfilt
    cases hcur : out rs.propertyId with
    | none =>
      rw [hcur] at ih
      have hnil : filt = [] := ih
      rw [cheapestStep_of_none hcur]
      simp only [mapSet, if_pos rfl]
      refine ⟨0, ?_, ?_, ?_⟩
      · simp [hnil]
      · simp
      · simp [hnil]
    | some cur =>
      rw [hcur] at ih
      obtain ⟨i, hi, hlt, hle⟩ := ih
      rw [cheapestStep_of_some hcur]
      by_cases hcmp : rsTotal rs < rsTotal cur
      · rw [if_pos hcmp]
        simp only [mapSet, if_pos rfl]
        refine ⟨filt.length, ?_, ?_, ?_⟩
        · simp
        · intro x hx
          rw [List.take_left' rfl] at hx
          exact lt_of_lt_of_le hcmp (hle x hx)
        · intro x hx
          rcases List.mem_append.mp hx with hx | hx
          · exact le_of_lt (lt_of_lt_of_le hcmp (hle x hx))
          · simp at hx; subst hx; exact le_refl _
      · rw [if_neg hcmp]
        rw [hcur]
        have hcle : rsTotal cur ≤ rsTotal rs := le_of_not_lt hcmp
        have hilt : i < filt.length := by
          by_contra hge
          rw [List.getElem?_eq_none (by omega)] at hi
          exact Option.noConfusion hi
        refine ⟨i, ?_, ?_, ?_⟩
        · rw [List.getElem?_append, if_pos hilt]; exact hi
        · intro x hx
          rw [List.take_append_of_le_length (le_of_lt hilt)] at hx
          exact hlt x hx
        · intro x hx
          rcases List.mem_append.mp hx with hx | hx
          · exact hle x hx
          · simp at hx; subst hx; exact hcle
  · have hfilter : (hist ++ [rs]).filter (fun x => x.propertyId == p) =
        hist.filter (fun x => x.propertyId == p) := by
      simp [List.filter_append, hp]
    rw [hfilter, cheapestStep_get_ne out rs p hp]
    exact ih

/-- The loop over a whole response list preserves the first-minimum
invariant relative to the history of room stays already processed. -/
lemma isFirstMin_processRoomStays (l : List TLRoomStay) :
    ∀ (hist : List TLRoomStay) (out : PropMap),
      (∀ p, IsFirstMin (hist.filter (fun x => x.propertyId == p)) (out p)) →
      ∀ p, IsFirstMin ((hist ++ l).filter (fun x => x.propertyId == p))
        (processRoomStays out l p) := by
  induction l with
  | nil =>
    intro hist out h p
    simpa [processRoomStays] using h p
  | cons rs rest ih =>
    intro hist out h p
    have hstep := fun q => isFirstMin_step hist out rs q (h q)
    have := ih (hist ++ [rs]) (cheapestStep out rs) hstep p
    simpa [processRoomStays] using this

/-- Splitting `processRoomStays` along an append. -/
lemma processRoomStays_append (out : PropMap) (l₁ l₂ : List TLRoomStay) :
    processRoomStays out (l₁ ++ l₂) = processRoomStays (processRoomStays out l₁) l₂ := by
  simp [processRoomStays, List.foldl_append]

/-- A successful run of the chunk loop is the fold of the concatenation of
the (all successful) chunk responses. -/
lemma cheapestGo_ok (post : SearchAggBody → Except UpstreamErr (List TLRoomStay))
    (arrival departure : String) (guests : GuestCount) (currency : String) :
    ∀ (bs : List (List String)) (out : PropMap) (m : PropMap),
      cheapestGo post arrival departure guests currency bs out = .ok m →
      ∃ resps : List (List TLRoomStay),
        bs.map (fun b => post (mkAggBody arrival departure guests currency b)) =
          resps.map Except.ok ∧
        m = processRoomStays out resps.flatten := by
  intro bs
  induction bs with
  | nil =>
    intro out m h
    simp only [cheapestGo, Except.ok.injEq] at h
    refine ⟨[], by simp, ?_⟩
    simp [processRoomStays, ← h]
  | cons b rest ih =>
    intro out m h
    unfold cheapestGo at h
    cases hpost : post (mkAggBody arrival departure guests currency b) with
    | error e => rw [hpost] at h; exact Except.noConfusion h
    | ok list =>
      rw [hpost] at h
      obtain ⟨resps, hmap, hm⟩ := ih (processRoomStays out list) m h
      refine ⟨list :: resps, ?_, ?_⟩
      · simp [hpost, hmap]
      · rw [hm, List.flatten_cons, processRoomStays_append]

/-- C1: for every list of room-stay offers processed in encounter order (the
concatenation of the successful chunk responses, in chunk order),
`getCheapestByPropertyIds` maps each property id to the first offer attaining
the minimal total price for that property, where the total is
`priceBeforeTax ?? priceAfterTax ?? +∞`; the best-so-far offer is replaced
only on a strictly lower total, so equal-price ties keep the first offer
encountered. -/
theorem c1_cheapest_selection (post : SearchAggBody → Except UpstreamErr (List TLRoomStay))
    (ids : List String) (arrival departure : String) (guests : GuestCount)
    (currency : String) (m : PropMap)
    (h : getCheapestByPropertyIds post ids arrival departure guests currency = .ok m) :
    ∃ resps : List (List TLRoomStay),
      (chunksOf 200 ids).map (fun b => post (mkAggBody arrival departure guests currency b)) =
        resps.map Except.ok ∧
      ∀ p : String,
        IsFirstMin ((resps.flatten).filter (fun x => x.propertyId == p)) (m p) := by
  obtain ⟨resps, hmap, hm⟩ :=
    cheapestGo_ok post arrival departure guests currency (chunksOf 200 ids) mapEmpty m h
  refine ⟨resps, hmap, fun p => ?_⟩
  rw [hm]
  have hbase : ∀ p, IsFirstMin (([] : List TLRoomStay).filter
      (fun x => x.propertyId == p)) (mapEmpty p) := by
    intro p; simp [IsFirstMin, mapEmpty]
  simpa using isFirstMin_processRoomStays resps.flatten [] mapEmpty hbase p

/-- `chunksOf` satisfies the natural "first chunk, then the rest" recurrence. -/
lemma chunksOf_cons (n : ℕ) (hn : 0 < n) (x : α) (xs : List α) :
    chunksOf n (x :: xs) = (x :: xs).take n :: chunksOf n ((x :: xs).drop n) := by
  have key : ∀ m : ℕ, 1 ≤ m → (m + n - 1) / n = ((m - n) + n - 1) / n + 1 := by
    intro m hm
    have h1 : m + n - 1 = (m - 1) + n := by omega
    rw [h1, Nat.add_div_right _ hn]
    rcases le_or_lt m n with h | h
    · have e0 : m - n = 0 := by omega
      rw [e0, Nat.zero_add, Nat.div_eq_of_lt (by omega), Nat.div_eq_of_lt (by omega)]
    · have h2 : (m - n) + n - 1 = (m - n - 1) + n := by omega
      have h3 : m - 1 = (m - n - 1) + n := by omega
      rw [h2, h3, Nat.add_div_right _ hn]
  unfold chunksOf
  have hlen : ((x :: xs).length + n - 1) / n =
      (((x :: xs).drop n).length + n - 1) / n + 1 := by
    rw [List.length_drop, List.length_cons]
    exact key (xs.length + 1) (by omega)
  rw [hlen, List.range_succ_eq_map, List.map_cons, List.map_map]
  congr 1
  · simp
  · apply List.map_congr_left
    intro i _
    show ((x :: xs).drop ((i + 1) * n)).take n = _
    have h4 : (x :: xs).drop ((i + 1) * n) = ((x :: xs).drop n).drop (i * n) := by
      rw [List.drop_drop]; congr 1; ring
    rw [h4]

/-- The chunks concatenate back to the input id list: every id is sent in
exactly one chunk, in order. -/
lemma flatten_chunksOf (n : ℕ) (hn : 0 < n) (l : List α) :
    (chunksOf n l).flatten = l := by
  cases l with
  | nil => simp [chunksOf]
  | cons x xs =>
    rw [chunksOf_cons n hn, List.flatten_cons, flatten_chunksOf n hn ((x :: xs).drop n)]
    exact List.take_append_drop n (x :: xs)
termination_by l.length
decreasing_by simp [List.length_drop]; omega

/-- Every chunk has at most `n` ids. -/
lemma length_le_of_mem_chunksOf {n : ℕ} {l : List α} {c : List α}
    (h : c ∈ chunksOf n l) : c.length ≤ n := by
  unfold chunksOf at h
  obtain ⟨i, _, hc⟩ := List.mem_map.mp h
  rw [← hc]
  exact List.length_take_le n _

/-- If the upstream call for any chunk fails, the whole chunk loop fails
(the source has no per-chunk `try`/`catch`). -/
lemma cheapestGo_error (post : SearchAggBody → Except UpstreamErr (List TLRoomStay))
    (arrival departure : String) (guests : GuestCount) (currency : String) :
    ∀ (bs : List (List String)) (out : PropMap),
      (∃ b ∈ bs, ∃ e, post (mkAggBody arrival departure guests currency b) = .error e) →
      ∃ e, cheapestGo post arrival departure guests currency bs out = .error e := by
  intro bs
  induction bs with
  | nil => intro out h; simp at h
  | cons b rest ih =>
    intro out ⟨w, hw, e, he⟩
    unfold cheapestGo
    cases hpost : post (mkAggBody arrival departure guests currency b) with
    | error e' => exact ⟨e', rfl⟩
    | ok list =>
      rcases List.mem_cons.mp hw with rfl | hw'
      · rw [hpost] at he; exact Except.noConfusion he
      · exact ih (processRoomStays out list) ⟨w, hw', e, he⟩

/-- C1 witness: on the spec's example (`A:100`, `A:90`, `A:90` in one chunk)
the aggregator returns a map and selects the second offer — the first
occurrence of the minimum — for property `A`. -/
theorem c1_cheapest_selection_witness :
    (getCheapestByPropertyIds c1post ["A"] "2025-09-26" "2025-09-28" ⟨2, none⟩ "RUB" =
      .ok c1map) ∧
    (∃ resps : List (List TLRoomStay),
      (chunksOf 200 ["A"]).map
          (fun b => c1post (mkAggBody "2025-09-26" "2025-09-28" ⟨2, none⟩ "RUB" b)) =
        resps.map Except.ok ∧
      ∀ p : String,
        IsFirstMin ((resps.flatten).filter (fun x => x.propertyId == p)) (c1map p)) ∧
    c1map "A" = some (exampleRS "A" 90 "second") :=
  ⟨rfl,
   c1_cheapest_selection c1post ["A"] "2025-09-26" "2025-09-28" ⟨2, none⟩ "RUB" c1map rfl,
   by decide⟩

set_option maxRecDepth 4000 in
/-- C3 counterexample: the first chunk's pricing call succeeds (yielding a
cheapest offer for property `"a"`), the second chunk's call fails, and
`getCheapestByPropertyIds` returns the error — the successful chunk's results
are dropped, contradicting the claim that each chunk is attempted
independently. -/
theorem c3_chunk_failure_counterexample :
    (chunksOf 200 c3ids).map
        (fun b => c3post (mkAggBody "2025-09-26" "2025-09-28" ⟨2, none⟩ "RUB" b)) =
      [Except.ok [exampleRS "a" 50 "cheap"], Except.error (UpstreamErr.err "chunk failed")] ∧
    getCheapestByPropertyIds c3post c3ids "2025-09-26" "2025-09-28" ⟨2, none⟩ "RUB" =
      .error (UpstreamErr.err "chunk failed") :=
  ⟨rfl, rfl⟩

/-- C3 amended: the input ids are chunked (200 per upstream pricing call, the
chunks partition the ids in order), and the chunks are attempted sequentially
with no per-chunk error handling: a failure of the upstream call for any
chunk makes the whole `getCheapestByPropertyIds` call fail, dropping the
results of all chunks. -/
theorem c3_chunking_amended (post : SearchAggBody → Except UpstreamErr (List TLRoomStay))
    (ids : List String) (arrival departure : String) (guests : GuestCount)
    (currency : String) :
    ((chunksOf 200 ids).flatten = ids ∧ ∀ c ∈ chunksOf 200 ids, c.length ≤ 200) ∧
    ((∃ b ∈ chunksOf 200 ids,
        ∃ e, post (mkAggBody arrival departure guests currency b) = .error e) →
      ∃ e, getCheapestByPropertyIds post ids arrival departure guests currency = .error e) := by
  refine ⟨⟨flatten_chunksOf 200 (by omega) ids,
    fun c hc => length_le_of_mem_chunksOf hc⟩, ?_⟩
  intro h
  exact cheapestGo_error post arrival departure guests currency (chunksOf 200 ids) mapEmpty h

set_option maxRecDepth 4000 in
/-- C3 amended witness: instantiation on the concrete failing oracle. -/
theorem c3_chunking_amended_witness :
    ((chunksOf 200 c3ids).flatten = c3ids ∧ ∀ c ∈ chunksOf 200 c3ids, c.length ≤ 200) ∧
    (∃ e, getCheapestByPropertyIds c3post c3ids "2025-09-26" "2025-09-28" ⟨2, none⟩ "RUB" =
      .error e) :=
  ⟨(c3_chunking_amended c3post c3ids "2025-09-26" "2025-09-28" ⟨2, none⟩ "RUB").1,
   (c3_chunking_amended c3post c3ids "2025-09-26" "2025-09-28" ⟨2, none⟩ "RUB").2
     ⟨["b"], by decide, UpstreamErr.err "chunk failed", rfl⟩⟩

/-! ## Property content (`getPropertyContent` / `fetchAndCacheContent`) -/

/-- C4: with a cached entry and refresh not forced, `getPropertyContent`
returns the cached entry (`cached = true`) without fetching; otherwise it
fetches: on success it returns fresh data (`cached = false`), on fetch
failure it returns a previously cached value marked `stale = true` without
raising, and it fails with `ContentUnavailable` exactly when no cached value
exists and the fetch failed. -/
theorem c4_content_stale_fallback (id : String) (cache : Option TLPropertyContent)
    (fetchResult : Option TLPropertyContent) (refresh : Bool) :
    (∀ c, cache = some c → refresh = false →
      getPropertyContent id cache fetchResult refresh =
        (.ok ⟨true, c, false⟩, false, some c)) ∧
    (∀ f, fetchResult = some f → (cache = none ∨ refresh = true) →
      getPropertyContent id cache fetchResult refresh =
        (.ok ⟨false, f, false⟩, true, some f)) ∧
    (∀ c, cache = some c → refresh = true → fetchResult = none →
      getPropertyContent id cache fetchResult refresh =
        (.ok ⟨true, c, true⟩, true, some c)) ∧
    (cache = none → fetchResult = none →
      getPropertyContent id cache fetchResult refresh =
        (.error (.contentUnavailable id), true, none)) := by
  refine ⟨?_, ?_, ?_, ?_⟩
  · rintro c rfl rfl
    rfl
  · rintro f rfl h
    rcases h with rfl | rfl
    · rfl
    · cases cache <;> rfl
  · rintro c rfl rfl rfl
    rfl
  · rintro rfl rfl
    rfl

/-- C4 witness: concrete instantiations of all four cases. -/
theorem c4_content_stale_fallback_witness :
    (getPropertyContent "P1" (some (exampleContent "P1")) none false =
      (.ok ⟨true, exampleContent "P1", false⟩, false, some (exampleContent "P1"))) ∧
    (getPropertyContent "P1" none (some (exampleContent "P1")) false =
      (.ok ⟨false, exampleContent "P1", false⟩, true, some (exampleContent "P1"))) ∧
    (getPropertyContent "P1" (some (exampleContent "P1")) none true =
      (.ok ⟨true, exampleContent "P1", true⟩, true, some (exampleContent "P1"))) ∧
    (getPropertyContent "P1" none none false =
      (.error (.contentUnavailable "P1"), true, none)) :=
  ⟨(c4_content_stale_fallback "P1" (some (exampleContent "P1")) none false).1
      (exampleContent "P1") rfl rfl,
   (c4_content_stale_fallback "P1" none (some (exampleContent "P1")) false).2.1
      (exampleContent "P1") rfl (Or.inl rfl),
   (c4_content_stale_fallback "P1" (some (exampleContent "P1")) none true).2.2.1
      (exampleContent "P1") rfl rfl rfl,
   (c4_content_stale_fallback "P1" none none false).2.2.2 rfl rfl⟩

/-- C5: `getHotelsList` builds exactly one card per requested (paginated)
property id that has both content and a cheapest offer — the multiset of
cards is exactly the image of those ids — every id missing either is
silently excluded, and the returned list is sorted ascending by per-night
price. -/
theorem c5_hotels_list_cards (formatRuDate : String → String) (geoIds : List String)
    (contentById : String → Option TLPropertyContent) (cheapestById : PropMap)
    (arrival departure : ℤ) (guests : GuestCount) (offset limit : Option ℕ) :
    (getHotelsList formatRuDate geoIds contentById cheapestById arrival departure
        guests offset limit).Perm
      ((slicedIds geoIds offset limit).filterMap (fun id =>
        match contentById id, cheapestById id with
        | some content, some offer =>
          some (buildCard formatRuDate content offer (diffNights arrival departure) guests)
        | _, _ => none)) ∧
    (getHotelsList formatRuDate geoIds contentById cheapestById arrival departure
        guests offset limit).Sorted cardLe := by
  unfold getHotelsList
  by_cases h : geoIds.isEmpty
  · rw [if_pos h]
    have hnil : geoIds = [] := by
      cases geoIds with
      | nil => rfl
      | cons x xs => simp at h
    subst hnil
    constructor
    · cases limit <;> simp [slicedIds]
    · simp
  · rw [if_neg h]
    exact ⟨List.perm_insertionSort cardLe _, List.sorted_insertionSort cardLe _⟩

/-- C6: for every built hotel card and room offer, the displayed per-night
price is `round(totalPrice / max(1, nights))` floored at 1 unit of currency
(never zero or negative), and `diffNights` is the calendar-day difference of
the two dates with a minimum of 1. -/
theorem c6_per_night_price (formatRuDate transform : String → String)
    (content : TLPropertyContent) (rs : TLRoomStay) (nights : ℤ)
    (guests : GuestCount) (a b : ℤ) :
    ((buildCard formatRuDate content rs nights guests).price.value =
        (rsTotal rs).map (fun q => max 1 (round (q / ((max 1 nights : ℤ) : ℚ)))) ∧
      (1 : WithTop ℤ) ≤ (buildCard formatRuDate content rs nights guests).price.value) ∧
    ((OfferService.mapRoomStayToOffer transform content rs nights).price.perNight =
        (rsTotal rs).map (fun q => max 1 (round (q / ((max 1 nights : ℤ) : ℚ)))) ∧
      (1 : WithTop ℤ) ≤
        (OfferService.mapRoomStayToOffer transform content rs nights).price.perNight) ∧
    diffNights a b = max 1 (b - a) := by
  have hval : ∀ x : WithTop ℚ,
      (1 : WithTop ℤ) ≤ x.map (fun q => max 1 (round (q / ((max 1 nights : ℤ) : ℚ)))) := by
    intro x
    induction x using WithTop.recTopCoe with
    | top => exact le_top
    | coe q =>
      rw [WithTop.map_coe]
      exact_mod_cast le_max_left 1 (round (q / ((max 1 nights : ℤ) : ℚ)))
  refine ⟨⟨rfl, hval (rsTotal rs)⟩, ⟨rfl, hval (rsTotal rs)⟩, ?_⟩
  unfold diffNights
  congr 1
  have hq : (((b * 86400000 : ℤ) : ℚ) - ((a * 86400000 : ℤ) : ℚ)) / 86400000 =
      ((b - a : ℤ) : ℚ) := by
    push_cast
    field_simp
    ring
  rw [hq, round_intCast]

end SearchService

namespace OAuthService

/-- C2 counterexample: a token issued at time 0 with `expires_in = 3600`
(Redis TTL `max(3600−120, 60) = 3480` s) is adopted into the in-process tier
by a `getAccessToken` Redis hit at t = 100 s — which sets
`memoryTokenExpiresAt = null` — and is then still returned by
`getValidAccessToken` at t = 10000 s, long after `E − margin = 3540` s (and
after `E` itself), contradicting the claim. -/
theorem c2_token_ttl_counterexample :
    getValidAccessToken ⟨none, none, none⟩ 0 (some ("T", 3600)) =
      (.ok "T", ⟨some "T", some 3480000, some ("T", 3480000)⟩, true) ∧
    getAccessToken ⟨some "T", some 3480000, some ("T", 3480000)⟩ 100000 none =
      (.ok "T", ⟨some "T", none, some ("T", 3480000)⟩, false) ∧
    getValidAccessToken ⟨some "T", none, some ("T", 3480000)⟩ 10000000 none =
      (.ok "T", ⟨some "T", none, some ("T", 3480000)⟩, false) ∧
    (3600 - 60) * 1000 < (10000000 : ℤ) :=
  ⟨rfl, rfl, rfl, by decide⟩

/-- C2 amended: a freshly fetched token with `expires_in = E` is cached in
both tiers with TTL `max(E − 120, 60)` seconds (not `E − margin`); the Redis
tier never returns an entry at or after its expiry, and an in-process entry
recorded with a (nonzero) expiry is not served at or after that expiry; but
a token adopted into memory from a Redis hit is stored with **no** expiry
and is returned by every later `getValidAccessToken` call regardless of the
time elapsed since issuance. -/
theorem c2_token_ttl_amended (s : OAuthState) (now : ℤ) (fresh : Option (String × ℤ)) :
    (∀ tok E, s.memoryToken = none → redisGet s now = none → fresh = some (tok, E) →
      getValidAccessToken s now fresh =
        (.ok tok,
         ⟨some tok, some (now + max (E - 120) 60 * 1000),
          some (tok, now + max (E - 120) 60 * 1000)⟩, true)) ∧
    (∀ tok expiry, s.redis = some (tok, expiry) → expiry ≤ now →
      redisGet s now = none) ∧
    (∀ tok e, s.memoryToken = some tok → s.memoryTokenExpiresAt = some e →
      e ≠ 0 → e ≤ now →
      getValidAccessToken s now fresh = getValidRest s now fresh) ∧
    (∀ tok, s.memoryToken = none → redisGet s now = some tok →
      getValidAccessToken s now fresh =
        (.ok tok, { s with memoryToken := some tok, memoryTokenExpiresAt := none },
         false)) ∧
    (∀ tok, s.memoryToken = some tok → tok ≠ "" → s.memoryTokenExpiresAt = none →
      getValidAccessToken s now fresh = (.ok tok, s, false)) := by
  refine ⟨?_, ?_, ?_, ?_, ?_⟩
  · intro tok E hmem hredis hfresh
    unfold getValidAccessToken
    rw [hmem]
    unfold getValidRest
    rw [hredis]
    unfold getAccessToken
    rw [hredis, hfresh]
  · intro tok expiry hredis hle
    unfold redisGet
    rw [hredis]
    simp
    omega
  · intro tok e hmem hexp hne hle
    unfold getValidAccessToken
    rw [hmem, hexp]
    show (if tok ≠ "" ∧ (e = 0 ∨ now < e) then ((Except.ok tok : Except Unit String), s, false)
      else getValidRest s now fresh) = getValidRest s now fresh
    rw [if_neg]
    rintro ⟨-, h0 | hlt⟩
    · exact hne h0
    · omega
  · intro tok hmem hredis
    unfold getValidAccessToken
    rw [hmem]
    unfold getValidRest
    rw [hredis]
  · intro tok hmem htok hexp
    unfold getValidAccessToken
    rw [hmem, hexp]
    show (if tok ≠ "" then ((Except.ok tok : Except Unit String), s, false)
      else getValidRest s now fresh) = ((Except.ok tok : Except Unit String), s, false)
    rw [if_pos htok]

/-- C2 amended witness: the amended guarantees and the uncovered hole on the
concrete trace of the counterexample. -/
theorem c2_token_ttl_amended_witness :
    (getValidAccessToken ⟨none, none, none⟩ 0 (some ("T", 3600)) =
      (.ok "T", ⟨some "T", some 3480000, some ("T", 3480000)⟩, true)) ∧
    (redisGet ⟨some "T", none, some ("T", 3480000)⟩ 5000000 = none) ∧
    (getValidAccessToken ⟨some "T", some 3480000, some ("T", 3480000)⟩ 3480000 none =
      getValidRest ⟨some "T", some 3480000, some ("T", 3480000)⟩ 3480000 none) ∧
    (getValidAccessToken ⟨some "T", none, some ("T", 3480000)⟩ 10000000 none =
      (.ok "T", ⟨some "T", none, some ("T", 3480000)⟩, false)) :=
  ⟨(c2_token_ttl_amended ⟨none, none, none⟩ 0 (some ("T", 3600))).1
      "T" 3600 rfl rfl rfl,
   (c2_token_ttl_amended ⟨some "T", none, some ("T", 3480000)⟩ 5000000 none).2.1
      "T" 3480000 rfl (by decide),
   (c2_token_ttl_amended ⟨some "T", some 3480000, some ("T", 3480000)⟩ 3480000 none).2.2.1
      "T" 3480000 rfl rfl (by decide) (by decide),
   (c2_token_ttl_amended ⟨some "T", none, some ("T", 3480000)⟩ 10000000 none).2.2.2.2
      "T" rfl (by decide) rfl⟩

end OAuthService

namespace ImageProxyService

/-- `getD` returns an element of the list when the default is one. -/
lemma getD_mem (l : List α) (i : ℕ) (d : α) (hd : d ∈ l) : l.getD i d ∈ l := by
  rw [List.getD_eq_getElem?_getD]
  rcases h : l[i]? with _ | x
  · simpa using hd
  · simpa using List.getElem?_mem h

/-- Every produced base64url character is in the alphabet. -/
lemma sextetToChar_mem (s : ℕ) : sextetToChar s ∈ b64Alphabet :=
  getD_mem _ _ _ (by decide)

/-- Decoding a character inverts encoding a digit value below 64. -/
lemma charToSextet_sextetToChar : ∀ s : Fin 64, charToSextet (sextetToChar s.val) = s.val := by
  decide

/-- All sextets produced from bytes `< 256` are `< 64`. -/
lemma bytesToSextets_lt : ∀ (l : List ℕ), (∀ b ∈ l, b < 256) →
    ∀ s ∈ bytesToSextets l, s < 64
  | [], _, s, hs => by simp [bytesToSextets] at hs
  | [a], h, s, hs => by
    have ha := h a (by simp)
    simp [bytesToSextets] at hs
    rcases hs with rfl | rfl <;> omega
  | [a, b], h, s, hs => by
    have ha := h a (by simp)
    have hb := h b (by simp)
    simp [bytesToSextets] at hs
    rcases hs with rfl | rfl | rfl <;> omega
  | a :: b :: c :: d :: rest, h, s, hs => by
    have ha := h a (by simp)
    have hb := h b (by simp)
    have hc := h c (by simp)
    simp only [bytesToSextets, List.mem_cons] at hs
    rcases hs with rfl | rfl | rfl | rfl | hmem
    · omega
    · omega
    · omega
    · omega
    · exact bytesToSextets_lt (d :: rest) (fun x hx => h x (by simp at hx ⊢; tauto)) s hmem
  | [a, b, c], h, s, hs => by
    have ha := h a (by simp)
    have hb := h b (by simp)
    have hc := h c (by simp)
    simp only [bytesToSextets, List.mem_cons] at hs
    rcases hs with rfl | rfl | rfl | rfl | hmem
    · omega
    · omega
    · omega
    · omega
    · simp [bytesToSextets] at hmem

/-- Regrouping bytes through sextets is the identity. -/
lemma sextetsToBytes_bytesToSextets : ∀ (l : List ℕ), (∀ b ∈ l, b < 256) →
    sextetsToBytes (bytesToSextets l) = l
  | [], _ => rfl
  | [a], h => by
    have ha := h a (by simp)
    simp only [bytesToSextets, sextetsToBytes, List.cons.injEq, and_true]
    omega
  | [a, b], h => by
    have ha := h a (by simp)
    have hb := h b (by simp)
    simp only [bytesToSextets, sextetsToBytes, List.cons.injEq, and_true]
    exact ⟨by omega, by omega⟩
  | a :: b :: c :: rest, h => by
    have ha := h a (by simp)
    have hb := h b (by simp)
    have hc := h c (by simp)
    simp only [bytesToSextets, sextetsToBytes, List.cons.injEq]
    refine ⟨by omega, by omega, by omega, ?_⟩
    exact sextetsToBytes_bytesToSextets rest (fun x hx => h x (by simp [hx]))

/-- C8: decoding the proxy token produced by encoding any URL (given by its
UTF-8 bytes) yields the original URL unchanged. -/
theorem c8_url_token_roundtrip (url : List ℕ) (h : ∀ b ∈ url, b < 256) :
    decodeUrl (encodeUrl url) = url := by
  unfold decodeUrl encodeUrl
  have hdata : (String.mk ((bytesToSextets url).map sextetToChar)).data
      = (bytesToSextets url).map sextetToChar := rfl
  rw [hdata]
  have hsex := bytesToSextets_lt url h
  have hfilter : ((bytesToSextets url).map sextetToChar).filter isB64Char
      = (bytesToSextets url).map sextetToChar := by
    apply List.filter_eq_self.mpr
    intro c hc
    obtain ⟨s, hs, rfl⟩ := List.mem_map.mp hc
    simpa [isB64Char] using sextetToChar_mem s
  rw [hfilter, List.map_map]
  have hinv : ∀ s ∈ bytesToSextets url, (charToSextet ∘ sextetToChar) s = id s :=
    fun s hs => charToSextet_sextetToChar ⟨s, hsex s hs⟩
  rw [List.map_congr_left hinv, List.map_id]
  exact sextetsToBytes_bytesToSextets url h

/-- C8 witness: the round trip on a concrete URL containing spaces, query
metacharacters and a non-ASCII character. -/
theorem c8_url_token_roundtrip_witness :
    (∀ b ∈ c8url, b < 256) ∧ decodeUrl (encodeUrl c8url) = c8url :=
  ⟨by decide, c8_url_token_roundtrip c8url (by decide)⟩

/-- C9: Node's base64url decoding is lenient and never throws, so the
`InvalidImageToken` branch is unreachable: the malformed token `"!!!"`
decodes to the empty URL and, its download failing, the request fails with
`ImageUnavailable` instead of `InvalidImageToken`; in fact every token
either succeeds or fails with `ImageUnavailable`. -/
theorem c9_image_error_modes :
    getImageByEncodedUrl (fun _ => "h0") (fun _ => none) (fun _ => none) "!!!" =
      .error .imageUnavailable ∧
    decodeUrl "!!!" = [] ∧
    (∀ (hash : List ℕ → String) (fs : String → Option (List ℕ))
       (download : List ℕ → Option (List ℕ × Option String)) (t : String),
      getImageByEncodedUrl hash fs download t = .error .imageUnavailable ∨
      ∃ v, getImageByEncodedUrl hash fs download t = .ok v) := by
  refine ⟨rfl, rfl, ?_⟩
  intro hash fs download t
  cases hfind : findCachedFile fs (hash (decodeUrl t)) with
  | some pc =>
    obtain ⟨path, ct⟩ := pc
    right
    refine ⟨(((fs path).getD [], ct), none), ?_⟩
    simp [getImageByEncodedUrl, hfind]
  | none =>
    cases hdl : download (decodeUrl t) with
    | some bc =>
      obtain ⟨buf, cth⟩ := bc
      right
      refine ⟨((buf, cth.getD "image/jpeg"),
        some (hash (decodeUrl t) ++ "." ++ contentTypeToExt (cth.getD "image/jpeg"), buf)), ?_⟩
      simp [getImageByEncodedUrl, downloadAndCache, hfind, hdl]
    | none =>
      left
      simp [getImageByEncodedUrl, downloadAndCache, hfind, hdl]

end ImageProxyService

namespace OfferService

/-- A check step preserves the pre-settlement invariant. -/
lemma phase1_stepCheck (s : DedupState n) (c : Fin n) (h : Phase1Inv s) :
    Phase1Inv (stepCheck s c) := by
  obtain ⟨hcache, hsettled, hd⟩ := h
  rcases hd with ⟨hif, hst, hnx, hcall⟩ | ⟨hif, hst, hnx, hcall⟩
  · have hc := hcall c
    simp only [stepCheck, hc, hcache, hif]
    refine ⟨rfl, hsettled, Or.inr ⟨?_, ?_, ?_, ?_⟩⟩
    · simp [hnx]
    · simp [hst, hnx]
    · simp [hnx]
    · intro c'
      by_cases hcc : c' = c
      · subst hcc
        simp [Function.update_same, hnx]
      · simp [Function.update_noteq hcc, hcall c']
  · rcases hcall c with hc | hc
    · simp only [stepCheck, hc, hcache, hif]
      refine ⟨rfl, hsettled, Or.inr ⟨rfl, hst, hnx, ?_⟩⟩
      intro c'
      by_cases hcc : c' = c
      · subst hcc
        simp [Function.update_same]
      · simp only [Function.update_noteq hcc]
        exact hcall c'
    · simp only [stepCheck, hc]
      exact ⟨hcache, hsettled, Or.inr ⟨hif, hst, hnx, hcall⟩⟩

/-- A wake step is a no-op before any settlement. -/
lemma phase1_stepWake (p : String) (s : DedupState n) (c : Fin n) (h : Phase1Inv s) :
    Phase1Inv (stepWake p s c) := by
  obtain ⟨hcache, hsettled, hd⟩ := h
  cases hc : s.callers c with
  | ready => simp only [stepWake, hc]; exact ⟨hcache, hsettled, hd⟩
  | waiting fid => simp only [stepWake, hc, hsettled fid]; exact ⟨hcache, hsettled, hd⟩
  | done r => simp only [stepWake, hc]; exact ⟨hcache, hsettled, hd⟩

/-- The pre-settlement invariant holds along a settle-free trace. -/
lemma phase1_run (p : String) (t1 : List (DedupAction n))
    (h1 : ∀ a ∈ t1, isSettle a = false) :
    ∀ s, Phase1Inv s → Phase1Inv (dedupRun p s t1) := by
  induction t1 with
  | nil => intro s h; exact h
  | cons a rest ih =>
    intro s h
    have hrest : ∀ b ∈ rest, isSettle b = false := fun b hb => h1 b (by simp [hb])
    have hstep : Phase1Inv (dedupStep p s a) := by
      cases a with
      | check c => exact phase1_stepCheck s c h
      | settle fid out => exact absurd (h1 (.settle fid out) (by simp)) (by simp [isSettle])
      | wake c => exact phase1_stepWake p s c h
    exact ih hrest (dedupStep p s a) hstep

/-- After the checks, the pre-settlement invariant entails the
post-check invariant. -/
lemma phase1_to_phase2 (p : String) (s : DedupState n) (h : Phase1Inv s) :
    Phase2Inv p s := by
  obtain ⟨hcache, hsettled, hd⟩ := h
  rcases hd with ⟨hif, hst, hnx, hcall⟩ | ⟨hif, hst, hnx, hcall⟩
  · exact Or.inl ⟨hst, hif, hsettled, hcall⟩
  · exact Or.inr ⟨hst, Or.inl ⟨hif, hsettled 0, hcall⟩⟩

/-- A settle step preserves the post-check invariant. -/
lemma phase2_stepSettle (p : String) (s : DedupState n) (fid : ℕ)
    (out : Except UpstreamErr (List TLRoomStay)) (h : Phase2Inv p s) :
    Phase2Inv p (stepSettle p s fid out) := by
  rcases h with ⟨hst, hif, hsettled, hcall⟩ | ⟨hst, ⟨hif, hs0, hcall⟩ | ⟨hif, o, ho, hcall⟩⟩
  · simp only [stepSettle, hif]
    rw [if_neg (by simp)]
    exact Or.inl ⟨hst, hif, hsettled, hcall⟩
  · by_cases hfid : fid = 0
    · subst hfid
      simp only [stepSettle, hif, if_pos rfl]
      cases out with
      | ok l =>
        refine Or.inr ⟨hst, Or.inr ⟨rfl, .ok l, ?_, ?_⟩⟩
        · simp [Function.update_same]
        · intro c
          rcases hcall c with hc | hc
          · exact Or.inl hc
          · exact Or.inr (Or.inl hc)
      | error e =>
        refine Or.inr ⟨hst, Or.inr ⟨rfl, .error e, ?_, ?_⟩⟩
        · simp [Function.update_same]
        · intro c
          rcases hcall c with hc | hc
          · exact Or.inl hc
          · exact Or.inr (Or.inl hc)
    · simp only [stepSettle, hif]
      rw [if_neg (by simp [Ne.symm hfid])]
      exact Or.inr ⟨hst, Or.inl ⟨hif, hs0, hcall⟩⟩
  · simp only [stepSettle, hif]
    rw [if_neg (by simp)]
    exact Or.inr ⟨hst, Or.inr ⟨hif, o, ho, hcall⟩⟩

/-- A wake step preserves the post-check invariant. -/
lemma phase2_stepWake (p : String) (s : DedupState n) (c : Fin n) (h : Phase2Inv p s) :
    Phase2Inv p (stepWake p s c) := by
  rcases h with ⟨hst, hif, hsettled, hcall⟩ | ⟨hst, ⟨hif, hs0, hcall⟩ | ⟨hif, o, ho, hcall⟩⟩
  · simp only [stepWake, hcall c]
    exact Or.inl ⟨hst, hif, hsettled, hcall⟩
  · rcases hcall c with hc | hc
    · simp only [stepWake, hc]
      exact Or.inr ⟨hst, Or.inl ⟨hif, hs0, hcall⟩⟩
    · simp only [stepWake, hc, hs0]
      exact Or.inr ⟨hst, Or.inl ⟨hif, hs0, hcall⟩⟩
  · rcases hcall c with hc | hc | hc
    · simp only [stepWake, hc]
      exact Or.inr ⟨hst, Or.inr ⟨hif, o, ho, hcall⟩⟩
    · simp only [stepWake, hc, ho]
      refine Or.inr ⟨hst, Or.inr ⟨hif, o, ho, ?_⟩⟩
      intro c'
      by_cases hcc : c' = c
      · subst hcc
        simp [Function.update_same]
      · simp only [Function.update_noteq hcc]
        exact hcall c'
    · simp only [stepWake, hc]
      exact Or.inr ⟨hst, Or.inr ⟨hif, o, ho, hcall⟩⟩

/-- The post-check invariant holds along a check-free trace. -/
lemma phase2_run (p : String) (t2 : List (DedupAction n))
    (h2 : ∀ a ∈ t2, isCheck a = false) :
    ∀ s, Phase2Inv p s → Phase2Inv p (dedupRun p s t2) := by
  induction t2 with
  | nil => intro s h; exact h
  | cons a rest ih =>
    intro s h
    have hrest : ∀ b ∈ rest, isCheck b = false := fun b hb => h2 b (by simp [hb])
    have hstep : Phase2Inv p (dedupStep p s a) := by
      cases a with
      | check c => exact absurd (h2 (.check c) (by simp)) (by simp [isCheck])
      | settle fid out => exact phase2_stepSettle p s fid out h
      | wake c => exact phase2_stepWake p s c h
    exact ih hrest (dedupStep p s a) hstep

/-- C7: for `n` concurrent callers with one fingerprint — every caller's
cache/in-flight check runs before any fetch settles — at most one upstream
pricing call is started, every caller that finishes gets the same result or
the same error, and the in-flight handle is gone as soon as (and whenever)
its fetch has settled, success and failure alike. -/
theorem c7_dedup_single_flight (p : String) (n : ℕ) (t1 t2 : List (DedupAction n))
    (h1 : ∀ a ∈ t1, isSettle a = false) (h2 : ∀ a ∈ t2, isCheck a = false) :
    (dedupRun p (initState n none) (t1 ++ t2)).started.length ≤ 1 ∧
    (∀ c c' r r', (dedupRun p (initState n none) (t1 ++ t2)).callers c = .done r →
      (dedupRun p (initState n none) (t1 ++ t2)).callers c' = .done r' → r = r') ∧
    (∀ fid, (dedupRun p (initState n none) (t1 ++ t2)).inflight = some fid →
      (dedupRun p (initState n none) (t1 ++ t2)).settled fid = none) := by
  have hinit : Phase1Inv (initState n none) := by
    refine ⟨rfl, fun f => rfl, Or.inl ⟨rfl, rfl, rfl, fun c => rfl⟩⟩
  have hsplit : dedupRun p (initState n none) (t1 ++ t2) =
      dedupRun p (dedupRun p (initState n none) t1) t2 := by
    simp [dedupRun, List.foldl_append]
  have hp1 := phase1_run p t1 h1 (initState n none) hinit
  have hp2 := phase2_run p t2 h2 _ (phase1_to_phase2 p _ hp1)
  rw [hsplit]
  set final := dedupRun p (dedupRun p (initState n none) t1) t2 with hfinal
  rcases hp2 with ⟨hst, hif, hsettled, hcall⟩ | ⟨hst, ⟨hif, hs0, hcall⟩ | ⟨hif, o, ho, hcall⟩⟩
  · refine ⟨by simp [hst], ?_, ?_⟩
    · intro c c' r r' hc hc'
      rw [hcall c] at hc
      exact absurd hc (by simp)
    · intro fid hfid
      rw [hif] at hfid
      exact absurd hfid (by simp)
  · refine ⟨by simp [hst], ?_, ?_⟩
    · intro c c' r r' hc hc'
      rcases hcall c with h | h <;> rw [h] at hc <;> exact absurd hc (by simp)
    · intro fid hfid
      rw [hif] at hfid
      obtain rfl : fid = 0 := by simpa using hfid.symm
      exact hs0
  · refine ⟨by simp [hst], ?_, ?_⟩
    · intro c c' r r' hc hc'
      have hr : r = mkRes p o := by
        rcases hcall c with h | h | h <;> rw [h] at hc
        · exact absurd hc (by simp)
        · exact absurd hc (by simp)
        · simpa using hc.symm
      have hr' : r' = mkRes p o := by
        rcases hcall c' with h | h | h <;> rw [h] at hc'
        · exact absurd hc' (by simp)
        · exact absurd hc' (by simp)
        · simpa using hc'.symm
      rw [hr, hr']
    · intro fid hfid
      rw [hif] at hfid
      exact absurd hfid (by simp)

/-- C7 witness: two concurrent callers, one settlement of the single fetch,
both resume; one upstream call is started, both callers get the same
(filtered) result, and the in-flight handle is gone. -/
theorem c7_dedup_single_flight_witness :
    (∀ a ∈ c7t1, isSettle a = false) ∧ (∀ a ∈ c7t2, isCheck a = false) ∧
    ((dedupRun "P" (initState 2 none) (c7t1 ++ c7t2)).started.length ≤ 1 ∧
     (∀ c c' r r', (dedupRun "P" (initState 2 none) (c7t1 ++ c7t2)).callers c = .done r →
       (dedupRun "P" (initState 2 none) (c7t1 ++ c7t2)).callers c' = .done r' → r = r') ∧
     (∀ fid, (dedupRun "P" (initState 2 none) (c7t1 ++ c7t2)).inflight = some fid →
       (dedupRun "P" (initState 2 none) (c7t1 ++ c7t2)).settled fid = none)) ∧
    (dedupRun "P" (initState 2 none) (c7t1 ++ c7t2)).callers 0 =
      .done (.ok [SearchService.exampleRS "P" 100 "match"]) ∧
    (dedupRun "P" (initState 2 none) (c7t1 ++ c7t2)).callers 1 =
      .done (.ok [SearchService.exampleRS "P" 100 "match"]) ∧
    (dedupRun "P" (initState 2 none) (c7t1 ++ c7t2)).started = [0] :=
  ⟨by decide, by decide,
   c7_dedup_single_flight "P" 2 c7t1 c7t2 (by decide) (by decide),
   by decide, by decide, by decide⟩

/-- A room stay taken from the filtered list is of the requested property. -/
lemma mem_filterProp {p : String} {l : List TLRoomStay} {rs : TLRoomStay}
    (h : rs ∈ filterProp p l) : rs.propertyId = p := by
  simp [filterProp] at h
  exact h.2

/-- Every interleaving step preserves the property invariant: the short-TTL
cache and every successfully finished caller hold only room stays of the
fingerprint's property. -/
lemma propInv_step (p : String) (s : DedupState n) (a : DedupAction n)
    (h : PropInv p s) : PropInv p (dedupStep p s a) := by
  obtain ⟨hcache, hdone⟩ := h
  cases a with
  | check c =>
    cases hc : s.callers c with
    | ready =>
      cases hca : s.cache with
      | some cached =>
        simp only [dedupStep, stepCheck, hc, hca]
        refine ⟨?_, ?_⟩
        · intro l hl
          injection hl with hl
          rw [← hl]
          exact hcache cached hca
        · intro c' l hl
          dsimp only at hl
          by_cases hcc : c' = c
          · subst hcc
            rw [Function.update_same] at hl
            injection hl with hl
            injection hl with hl
            rw [← hl]
            exact hcache cached hca
          · rw [Function.update_noteq hcc] at hl
            exact hdone c' l hl
      | none =>
        cases hif : s.inflight with
        | some fid =>
          simp only [dedupStep, stepCheck, hc, hca, hif]
          refine ⟨?_, ?_⟩
          · intro l hl
            exact absurd hl (by simp)
          · intro c' l hl
            dsimp only at hl
            by_cases hcc : c' = c
            · subst hcc
              rw [Function.update_same] at hl
              exact absurd hl (by simp)
            · rw [Function.update_noteq hcc] at hl
              exact hdone c' l hl
        | none =>
          simp only [dedupStep, stepCheck, hc, hca, hif]
          refine ⟨?_, ?_⟩
          · intro l hl
            exact absurd hl (by simp)
          · intro c' l hl
            dsimp only at hl
            by_cases hcc : c' = c
            · subst hcc
              rw [Function.update_same] at hl
              exact absurd hl (by simp)
            · rw [Function.update_noteq hcc] at hl
              exact hdone c' l hl
    | waiting fid =>
      simp only [dedupStep, stepCheck, hc]
      exact ⟨hcache, hdone⟩
    | done r =>
      simp only [dedupStep, stepCheck, hc]
      exact ⟨hcache, hdone⟩
  | settle fid out =>
    simp only [dedupStep, stepSettle]
    by_cases hif : s.inflight = some fid
    · rw [if_pos hif]
      cases out with
      | ok l =>
        refine ⟨?_, ?_⟩
        · intro l' hl'
          injection hl' with hl'
          rw [← hl']
          intro rs hrs
          exact mem_filterProp hrs
        · intro c' l' hl'
          exact hdone c' l' hl'
      | error e =>
        exact ⟨hcache, hdone⟩
    · rw [if_neg hif]
      exact ⟨hcache, hdone⟩
  | wake c =>
    cases hc : s.callers c with
    | waiting fid =>
      cases hs : s.settled fid with
      | some out =>
        simp only [dedupStep, stepWake, hc, hs]
        refine ⟨hcache, ?_⟩
        intro c' l hl
        dsimp only at hl
        by_cases hcc : c' = c
        · subst hcc
          rw [Function.update_same] at hl
          cases out with
          | ok l0 =>
            injection hl with hl
            simp only [mkRes] at hl
            injection hl with hl
            rw [← hl]
            intro rs hrs
            exact mem_filterProp hrs
          | error e =>
            simp only [mkRes] at hl
            exact absurd hl (by simp)
        · rw [Function.update_noteq hcc] at hl
          exact hdone c' l hl
      | none =>
        simp only [dedupStep, stepWake, hc, hs]
        exact ⟨hcache, hdone⟩
    | ready =>
      simp only [dedupStep, stepWake, hc]
      exact ⟨hcache, hdone⟩
    | done r =>
      simp only [dedupStep, stepWake, hc]
      exact ⟨hcache, hdone⟩

/-- The property invariant holds along every trace. -/
lemma propInv_run (p : String) (tr : List (DedupAction n)) :
    ∀ s, PropInv p s → PropInv p (dedupRun p s tr) := by
  induction tr with
  | nil => intro s h; exact h
  | cons a rest ih =>
    intro s h
    exact ih (dedupStep p s a) (propInv_step p s a h)

/-- C10: from any state whose cache and finished callers are well-formed for
the requested property, every room-stay list a caller of
`getRoomStaysWithDedup` ends up with — whether served from the upstream
call, a coalesced in-flight result, or the short-TTL cache — contains only
room stays with `propertyId` equal to the requested id, and hence every
offer `getPropertyOffers` maps from it is built from such a room stay. -/
theorem c10_offers_match_requested_property (p : String) (n : ℕ)
    (transform : String → String) (content : TLPropertyContent) (nights : ℤ)
    (tr : List (DedupAction n)) (s0 : DedupState n) (h : PropInv p s0) :
    PropInv p (dedupRun p s0 tr) ∧
    ∀ c l, (dedupRun p s0 tr).callers c = .done (.ok l) →
      (∀ rs ∈ l, rs.propertyId = p) ∧
      ∀ o ∈ l.map (fun rs => mapRoomStayToOffer transform content rs nights),
        ∃ rs, rs.propertyId = p ∧ o = mapRoomStayToOffer transform content rs nights := by
  have hrun : PropInv p (dedupRun p s0 tr) := propInv_run p tr s0 h
  refine ⟨hrun, ?_⟩
  intro c l hl
  have hwf := hrun.2 c l hl
  refine ⟨hwf, ?_⟩
  intro o ho
  obtain ⟨rs, hrs, rfl⟩ := List.mem_map.mp ho
  exact ⟨rs, hwf rs hrs, rfl⟩

/-- C10 witness: in the concrete two-caller trace the stray room stay of
property `"Q"` is filtered out; the caller's list holds only `"P"` room
stays and its offers are built from them. -/
theorem c10_offers_match_requested_property_witness :
    PropInv "P" (initState 2 none) ∧
    ((dedupRun "P" (initState 2 none) (c7t1 ++ c7t2)).callers 0 =
      .done (.ok [SearchService.exampleRS "P" 100 "match"])) ∧
    (∀ rs ∈ [SearchService.exampleRS "P" 100 "match"], rs.propertyId = "P") ∧
    (∀ o ∈ [SearchService.exampleRS "P" 100 "match"].map
        (fun rs => mapRoomStayToOffer id (SearchService.exampleContent "P") rs 2),
      ∃ rs, rs.propertyId = "P" ∧
        o = mapRoomStayToOffer id (SearchService.exampleContent "P") rs 2) := by
  have hinv : PropInv "P" (initState 2 none) := by
    constructor
    · intro l hl
      exact absurd hl (by simp [initState])
    · intro c l hl
      exact absurd hl (by simp [initState])
  have hdone : (dedupRun "P" (initState 2 none) (c7t1 ++ c7t2)).callers 0 =
      .done (.ok [SearchService.exampleRS "P" 100 "match"]) := by decide
  have happ := (c10_offers_match_requested_property "P" 2 id
      (SearchService.exampleContent "P") 2 (c7t1 ++ c7t2) (initState 2 none) hinv).2
      0 _ hdone
  exact ⟨hinv, hdone, happ.1, happ.2⟩

end OfferService

end TouristTour
